import Mathlib

/-!
Verification development for the `next-nice-datatable` data-table library
(version 2.0.0 sources: `exportUtils.ts`, `useDataTable.ts`).

The TypeScript sources are embedded shallowly:

* JavaScript runtime values are modelled by the inductive type `JSVal`
  (null, undefined, booleans, numbers, strings, arrays, and plain objects
  with an optional prototype).  Numbers are modelled as integers; `Date`
  objects and functions are not modelled (no claim exercises them).
  Property reads traverse own properties first and then the prototype
  chain, like ordinary JavaScript property lookup.
* String-returning JavaScript primitives (`String(...)`, `toLowerCase`,
  `split('.')`, `includes`, `startsWith`, `endsWith`) are modelled by
  executable character-level functions.  `toLowerCase` is modelled on the
  ASCII range and `localeCompare` is kept as an explicit function
  parameter `lc` wherever the source calls it, so no theorem depends on a
  particular locale.
* React state updates are modelled by explicit state records and pure
  transition functions; the injected asynchronous fetch is modelled by an
  `Except` parameter describing its outcome.
-/

/-- ASCII lower-casing of one character (models the locale-independent
part of `String.prototype.toLowerCase`). -/
def charLower (c : Char) : Char :=
  if 'A' ≤ c ∧ c ≤ 'Z' then Char.ofNat (c.toNat + 32) else c

/-- Models `s.toLowerCase()` (ASCII range). -/
def strLower (s : String) : String := String.mk (s.data.map charLower)

/-- Is `p` a prefix of `l`?  Executable helper for the string predicates. -/
def charsPrefix : List Char → List Char → Bool
  | [], _ => true
  | _ :: _, [] => false
  | p :: ps, c :: cs => p == c && charsPrefix ps cs

/-- Does `l` contain `needle` as a contiguous run? -/
def charsContains (needle : List Char) : List Char → Bool
  | [] => needle.isEmpty
  | c :: rest => charsPrefix needle (c :: rest) || charsContains needle rest

/-- Models `s.includes(pat)`. -/
def strContains (s pat : String) : Bool := charsContains pat.data s.data

/-- Models `s.startsWith(pat)`. -/
def strStartsWith (s pat : String) : Bool := charsPrefix pat.data s.data

/-- Models `s.endsWith(pat)`. -/
def strEndsWith (s pat : String) : Bool := charsPrefix pat.data.reverse s.data.reverse

/-- Concatenation of a list of strings (models `Array.prototype.join('')`). -/
def strJoin : List String → String
  | [] => ""
  | s :: rest => s ++ strJoin rest

/-- Models `Array.prototype.join(sep)`. -/
def joinSep (sep : String) : List String → String
  | [] => ""
  | [s] => s
  | s :: rest => s ++ sep ++ joinSep sep rest

/-- Splits a character list at every `'.'` (the separators are dropped,
empty runs are kept), exactly like `String.prototype.split('.')`. -/
def splitDot : List Char → List (List Char)
  | [] => [[]]
  | c :: rest =>
    if c = '.' then [] :: splitDot rest
    else
      match splitDot rest with
      | [] => [[c]]
      | g :: gs => (c :: g) :: gs

/-- Models `path.split('.')`. -/
def splitPath (s : String) : List String := (splitDot s.data).map String.mk

/-- JavaScript runtime values, as far as the data-table core observes them.
Objects carry their own enumerable string-keyed properties plus an optional
prototype object, so "a property deliberately present on the row's
prototype chain" is expressible.  `Date` objects and function values are
not modelled (no claim exercises them). -/
inductive JSVal where
  | null
  | undefinedV
  | bool (b : Bool)
  | num (n : Int)
  | str (s : String)
  | arr (items : List JSVal)
  | obj (fields : List (String × JSVal)) (proto : Option JSVal)

/-- `value === null || value === undefined`. -/
def nullish : JSVal → Bool
  | .null => true
  | .undefinedV => true
  | _ => false

/-- `typeof value === 'object' && value !== null` (arrays included). -/
def isComposite : JSVal → Bool
  | .obj _ _ => true
  | .arr _ => true
  | _ => false

/-- First own property with the given key. -/
def findField : List (String × JSVal) → String → Option JSVal
  | [], _ => none
  | (k, v) :: rest, key => if k = key then some v else findField rest key

/-- JavaScript property read `value[key]`: own properties first, then the
prototype chain; absent properties read as `undefined`.  Array index and
`length` reads are irrelevant to every claim and read as `undefined`
(arrays are modelled with a null prototype). -/
def getProp : JSVal → String → JSVal
  | .obj fields proto, key =>
    match findField fields key with
    | some v => v
    | none =>
      match proto with
      | some p => getProp p key
      | none => .undefinedV
  | _, _ => .undefinedV

/-- `BANNED_KEYS` from `exportUtils.ts`:
keys that must never be traversed. -/
def bannedKeys : List String := ["__proto__", "constructor", "prototype"]

/-- The segment loop of `getNestedValue`: for each part, a banned segment
stops resolution with `undefined`; a `null`/`undefined`/non-object current
value stops with `undefined`; otherwise the property is read and the loop
continues. -/
def getNestedValueLoop : JSVal → List String → JSVal
  | current, [] => current
  | current, part :: rest =>
    if part ∈ bannedKeys then .undefinedV
    else if !isComposite current then .undefinedV
    else getNestedValueLoop (getProp current part) rest

/-- `getNestedValue(obj, path)` from `exportUtils.ts` (v2.0.0): splits the
path on `'.'` and walks it with the banned-segment guard. -/
def getNestedValue (obj : JSVal) (path : String) : JSVal :=
  getNestedValueLoop obj (splitPath path)

mutual
/-- JavaScript `String(value)` coercion. -/
def jsToString : JSVal → String
  | .null => "null"
  | .undefinedV => "undefined"
  | .bool b => if b then "true" else "false"
  | .num n => toString n
  | .str s => s
  | .obj _ _ => "[object Object]"
  | .arr items => jsArrToString items

/-- `Array.prototype.toString` = `join(',')` over the element strings. -/
def jsArrToString : List JSVal → String
  | [] => ""
  | [v] => jsElemToString v
  | v :: rest => jsElemToString v ++ "," ++ jsArrToString rest

/-- Array elements stringified for `join`: `null`/`undefined` become the
empty string. -/
def jsElemToString : JSVal → String
  | .null => ""
  | .undefinedV => ""
  | v => jsToString v
end

/-- `c` is an ASCII decimal digit. -/
def isDigitChar (c : Char) : Bool := '0' ≤ c && c ≤ '9'

/-- JavaScript whitespace trimmed by `Number(string)`. -/
def isWsChar (c : Char) : Bool := c == ' ' || c == '\t' || c == '\n' || c == '\r'

/-- Digit run to a number; `none` when empty or a non-digit appears. -/
def digitsToNat : List Char → Option Nat
  | [] => none
  | cs =>
    cs.foldl
      (fun acc c =>
        match acc with
        | none => none
        | some n => if isDigitChar c then some (n * 10 + (c.toNat - '0'.toNat)) else none)
      (some 0)

/-- `Number(string)` restricted to optionally-signed decimal integers
(the only numeric strings any claim exercises); the empty or all-blank
string converts to `0`, anything unparsable to `NaN` (`none`). -/
def jsStringToNumber (s : String) : Option Int :=
  let t := (s.data.dropWhile isWsChar).reverse.dropWhile isWsChar |>.reverse
  match t with
  | [] => some 0
  | '-' :: ds => (digitsToNat ds).map (fun n => -(n : Int))
  | '+' :: ds => (digitsToNat ds).map (fun n => (n : Int))
  | ds => (digitsToNat ds).map (fun n => (n : Int))

/-- JavaScript `Number(value)` coercion; `none` models `NaN`.  Objects and
arrays convert through their string form. -/
def jsToNumber : JSVal → Option Int
  | .null => some 0
  | .undefinedV => none
  | .bool b => some (if b then 1 else 0)
  | .num n => some n
  | .str s => jsStringToNumber s
  | v => jsStringToNumber (jsToString v)

/-- Strict equality `===` restricted to primitive operands; two composite
values are never identical in this model (reference equality of distinct
object literals).  Row keys are primitives in every claim. -/
def jsStrictEq : JSVal → JSVal → Bool
  | .null, .null => true
  | .undefinedV, .undefinedV => true
  | .bool a, .bool b => a == b
  | .num a, .num b => a == b
  | .str a, .str b => a == b
  | _, _ => false

/-- One character HTML-escaped as the browser serializes a text node
(`div.textContent = s; div.innerHTML`): `&`, `<`, `>` become entities. -/
def escapeHtmlChar (c : Char) : String :=
  if c = '&' then "&amp;"
  else if c = '<' then "&lt;"
  else if c = '>' then "&gt;"
  else String.mk [c]

/-- HTML-escaping of a string via per-character entity replacement. -/
def escapeHtmlString (s : String) : String := strJoin (s.data.map escapeHtmlChar)

/-- `escapeHtml(value)` from `exportUtils.ts` (v2.0.0): `null`/`undefined`
give the empty string, every other value is stringified and HTML-escaped
through the DOM text-node trick. -/
def escapeHtml : JSVal → String
  | .null => ""
  | .undefinedV => ""
  | v => escapeHtmlString (jsToString v)

/-- `resolveHtmlContent(value, allowUnsafe)`: falsy values give the empty
string; otherwise the raw string when `allowUnsafe`, else its HTML-escaped
form. -/
def resolveHtmlContent (value : Option String) (allowUnsafe : Bool) : String :=
  match value with
  | none => ""
  | some s => if s == "" then "" else if allowUnsafe then s else escapeHtmlString s

/-- Minimal JSON string-literal escaping used by `JSON.stringify`. -/
def jsonEscChar (c : Char) : String :=
  if c = '"' then "\\\""
  else if c = '\\' then "\\\\"
  else if c = '\n' then "\\n"
  else if c = '\r' then "\\r"
  else if c = '\t' then "\\t"
  else String.mk [c]

/-- A JSON string literal. -/
def jsonQuote (s : String) : String := "\"" ++ strJoin (s.data.map jsonEscChar) ++ "\""

mutual
/-- `JSON.stringify(value)` (undefined inside arrays serializes as `null`,
undefined-valued object properties are omitted; no claim exercises a
top-level `undefined`). -/
def jsonStringify : JSVal → String
  | .null => "null"
  | .undefinedV => "null"
  | .bool b => if b then "true" else "false"
  | .num n => toString n
  | .str s => jsonQuote s
  | .arr items => "[" ++ jsonArrBody items ++ "]"
  | .obj fields _ => "\x7b" ++ jsonObjBody fields ++ "\x7d"

/-- Array elements, comma-separated. -/
def jsonArrBody : List JSVal → String
  | [] => ""
  | [v] => jsonStringify v
  | v :: rest => jsonStringify v ++ "," ++ jsonArrBody rest

/-- Object properties, comma-separated, `undefined` values omitted. -/
def jsonObjBody : List (String × JSVal) → String
  | [] => ""
  | (k, v) :: rest =>
    match v with
    | .undefinedV => jsonObjBody rest
    | _ =>
      let s := jsonQuote k ++ ":" ++ jsonStringify v
      let r := jsonObjBody rest
      if r == "" then s else s ++ "," ++ r
end

/-- `DataTableColumn` restricted to the fields the embedded functions
read.  `exportFormat` is the optional caller-supplied cell formatter
`(value, row, rowIndex) => string`. -/
structure Column where
  id : String
  label : String
  searchable : Option Bool := none
  exportable : Option Bool := none
  hidden : Option Bool := none
  exportFormat : Option (JSVal → JSVal → Nat → String) := none

/-- `ExportConfig` restricted to the fields the Word exporter reads.
Optional fields model the `field?:` TypeScript declarations (`none` is
`undefined`). -/
structure ExportConfig where
  filename : Option String := none
  title : Option String := none
  subtitle : Option String := none
  includeHeaders : Option Bool := none
  customHeader : Option String := none
  customFooter : Option String := none
  allowUnsafeHtml : Option Bool := none

/-- JavaScript truthiness of an optional string (`undefined` and `""` are
falsy). -/
def optTruthy : Option String → Bool
  | none => false
  | some s => s != ""

/-- JavaScript `o || d` for an optional string. -/
def jsOrDefault (o : Option String) (d : String) : String :=
  match o with
  | none => d
  | some s => if s == "" then d else s

/-- `formatValueForExport(value, row, column, rowIndex)`: the column
formatter wins; otherwise `''` for nullish values, `Yes`/`No` for
booleans, `JSON.stringify` for objects and arrays, string coercion for
the rest.  (The `Date` branch is not modelled; `JSVal` has no dates.) -/
def formatValueForExport (value : JSVal) (row : JSVal) (column : Column)
    (rowIndex : Nat) : String :=
  match column.exportFormat with
  | some f => f value row rowIndex
  | none =>
    match value with
    | .null => ""
    | .undefinedV => ""
    | .bool b => if b then "Yes" else "No"
    | .obj fields proto => jsonStringify (.obj fields proto)
    | .arr items => jsonStringify (.arr items)
    | v => jsToString v

/-- `columns.filter(col => col.exportable !== false && !col.hidden)`. -/
def exportableColumnsOf (columns : List Column) : List Column :=
  columns.filter (fun col => col.exportable != some false && col.hidden != some true)

/-- The fixed `<style>` block of the Word-export HTML shell. -/
def wordStyleBlock : String :=
  "  <style>\n    body \x7b font-family: Calibri, sans-serif; font-size: 11pt; margin: 2cm; \x7d\n    h1 \x7b font-size: 18pt; color: #1976d2; margin-bottom: 4pt; \x7d\n    .subtitle \x7b font-size: 11pt; color: #666; margin-bottom: 12pt; \x7d\n    .custom-header \x7b font-size: 10pt; margin-bottom: 8pt; \x7d\n    .meta \x7b font-size: 9pt; color: #888; margin-bottom: 18pt; \x7d\n    table \x7b width: 100%; border-collapse: collapse; margin-top: 8pt; \x7d\n    th \x7b\n      background-color: #1976d2; color: white; font-weight: bold;\n      text-align: left; padding: 7pt 5pt; font-size: 10pt;\n      border: 1pt solid #1565c0;\n    \x7d\n    td \x7b padding: 5pt; border: 1pt solid #e0e0e0; font-size: 10pt; \x7d\n    tr:nth-child(even) td \x7b background-color: #f5f5f5; \x7d\n    .footer \x7b\n      margin-top: 18pt; padding-top: 8pt; border-top: 1pt solid #e0e0e0;\n      font-size: 9pt; color: #888; text-align: center;\n    \x7d\n  </style>\n"

/-- `exportToWord(data, columns, config)` from `exportUtils.ts` (v2.0.0),
modelled as the HTML document string it builds (the surrounding
`Blob`/download plumbing is an external collaborator).  `now` stands for
`new Date().toLocaleString()`.  `escapeHtml` applied to a value that is
already a string is written `escapeHtmlString` (string coercion of a
string is the identity). -/
def exportToWord (data : List JSVal) (columns : List Column)
    (config : ExportConfig) (now : String) : String :=
  let exportableColumns := exportableColumnsOf columns
  let allowUnsafe := config.allowUnsafeHtml == some true
  let customHeaderHtml :=
    if optTruthy config.customHeader then
      "<div class=\"custom-header\">" ++ resolveHtmlContent config.customHeader allowUnsafe
        ++ "</div>"
    else ""
  let customFooterHtml :=
    if optTruthy config.customFooter then
      "<p class=\"footer\">" ++ resolveHtmlContent config.customFooter allowUnsafe ++ "</p>"
    else
      "<p class=\"footer\">" ++ escapeHtmlString (jsOrDefault config.title "Document") ++ "</p>"
  let tableRows := joinSep "\n" (data.enum.map (fun p =>
    "<tr>" ++ strJoin (exportableColumns.map (fun col =>
      let value := getNestedValue p.2 col.id
      let formatted := formatValueForExport value p.2 col p.1
      "<td>" ++ escapeHtmlString formatted ++ "</td>")) ++ "</tr>"))
  let headerRow :=
    if config.includeHeaders != some false then
      "<tr>" ++ strJoin (exportableColumns.map (fun col =>
        "<th>" ++ escapeHtmlString col.label ++ "</th>")) ++ "</tr>"
    else ""
  "\n<html xmlns:o=\"urn:schemas-microsoft-com:office:office\"\n      xmlns:w=\"urn:schemas-microsoft-com:office:word\"\n      xmlns=\"http://www.w3.org/TR/REC-html40\">\n<head>\n  <meta charset=\"UTF-8\">\n  <title>"
  ++ escapeHtmlString (jsOrDefault config.title "Export")
  ++ "</title>\n  <!--[if gte mso 9]>\n  <xml>\n    <w:WordDocument>\n      <w:View>Print</w:View>\n      <w:Zoom>100</w:Zoom>\n      <w:DoNotOptimizeForBrowser/>\n    </w:WordDocument>\n  </xml>\n  <![endif]-->\n"
  ++ wordStyleBlock
  ++ "</head>\n<body>\n  "
  ++ (match config.title with
      | none => ""
      | some t => if t == "" then "" else "<h1>" ++ escapeHtmlString t ++ "</h1>")
  ++ "\n  "
  ++ (match config.subtitle with
      | none => ""
      | some st => if st == "" then "" else "<p class=\"subtitle\">" ++ escapeHtmlString st ++ "</p>")
  ++ "\n  " ++ customHeaderHtml
  ++ "\n  <p class=\"meta\">Generated: " ++ escapeHtmlString now
  ++ " | Total Records: " ++ toString data.length
  ++ "</p>\n  <table>\n    <thead>" ++ headerRow
  ++ "</thead>\n    <tbody>" ++ tableRows
  ++ "</tbody>\n  </table>\n  " ++ customFooterHtml
  ++ "\n</body>\n</html>"

/-- The per-column filter operators of `FilterState` (`types.ts`). -/
inductive FilterOperator where
  | equals
  | contains
  | startsWith
  | endsWith
  | greaterThan
  | lessThan
  | isEmpty
  | isNotEmpty
  deriving DecidableEq

/-- One per-column predicate `{ value, operator }`. -/
structure ColumnFilter where
  value : JSVal
  operator : FilterOperator

/-- `FilterState`: column id to predicate, in `Object.entries` order. -/
def FilterState := List (String × ColumnFilter)

/-- `value === null || value === undefined || value === ''`. -/
def isEmptyVal : JSVal → Bool
  | .null => true
  | .undefinedV => true
  | .str s => s == ""
  | _ => false

/-- One `filters` entry applied to a row — the `switch (filter.operator)`
inside `processedData` of `useDataTable.ts` (v2.0.0).  `strVal` and
`strFilter` are the lower-cased string forms of `value ?? ''` and
`filter.value ?? ''`; `equals` compares the raw `String(...)` forms. -/
def evalFilter (row : JSVal) (columnId : String) (filter : ColumnFilter) : Bool :=
  let value := getNestedValue row columnId
  let strVal := strLower (jsToString (if nullish value then .str "" else value))
  let strFilter := strLower (jsToString (if nullish filter.value then .str "" else filter.value))
  match filter.operator with
  | .equals => jsToString value == jsToString filter.value
  | .contains => strContains strVal strFilter
  | .startsWith => strStartsWith strVal strFilter
  | .endsWith => strEndsWith strVal strFilter
  | .greaterThan =>
    match jsToNumber value, jsToNumber filter.value with
    | some a, some b => decide (a > b)
    | _, _ => false
  | .lessThan =>
    match jsToNumber value, jsToNumber filter.value with
    | some a, some b => decide (a < b)
    | _, _ => false
  | .isEmpty => isEmptyVal value
  | .isNotEmpty => !isEmptyVal value

mutual
/-- `extractAllValues(obj)`: every leaf of a row flattened to strings
(the `WeakSet` cycle guard of the source is vacuous here because `JSVal`
is inductive and therefore acyclic; the `Date` branch is not modelled). -/
def extractAllValues : JSVal → List String
  | .null => []
  | .undefinedV => []
  | .str s => [s]
  | .num n => [toString n]
  | .bool b => [if b then "true" else "false"]
  | .arr items => extractAllValuesList items
  | .obj fields _ => extractAllValuesFields fields

/-- Leaves of every array element, in order. -/
def extractAllValuesList : List JSVal → List String
  | [] => []
  | v :: rest => extractAllValues v ++ extractAllValuesList rest

/-- Leaves of every `Object.values` entry, in order. -/
def extractAllValuesFields : List (String × JSVal) → List String
  | [] => []
  | (_, v) :: rest => extractAllValues v ++ extractAllValuesFields rest
end

/-- `matchesSearch(row, searchLower)`: searchable columns first, then the
full-text fallback over every leaf value. -/
def matchesSearch (columns : List Column) (row : JSVal) (searchLower : String) : Bool :=
  (columns.filter (fun col => col.searchable != some false)).any (fun col =>
    let value := getNestedValue row col.id
    !nullish value && strContains (strLower (jsToString value)) searchLower)
  || (extractAllValues row).any (fun v => strContains (strLower v) searchLower)

/-- Sort direction (`'asc' | 'desc'`; the absent direction is `Option`). -/
inductive SortDirection where
  | asc
  | desc
  deriving DecidableEq

/-- `SortState = { column, direction }`. -/
structure SortState where
  column : Option String
  direction : Option SortDirection

/-- The sort comparator of `processedData` (`useDataTable.ts` v2.0.0).
`lc` stands for `String.prototype.localeCompare`.  Note the negation for
`'desc'` applies to the whole comparator, the nullish branches included. -/
def sortCmp (lc : String → String → Int) (column : String) (direction : SortDirection)
    (a b : JSVal) : Int :=
  let aVal := getNestedValue a column
  let bVal := getNestedValue b column
  let cmp : Int :=
    if nullish aVal then 1
    else if nullish bVal then -1
    else
      match aVal, bVal with
      | .str s1, .str s2 => lc s1 s2
      | .num n1, .num n2 => n1 - n2
      | _, _ => lc (jsToString aVal) (jsToString bVal)
  if direction = .desc then -cmp else cmp

/-- Stable merge of two runs; the element of the first run is taken
whenever the comparator is ≤ 0, as in every stable
`Array.prototype.sort`. -/
def jsMerge (cmp : α → α → Int) : List α → List α → List α
  | [], bs => bs
  | a :: as, [] => a :: as
  | a :: as, b :: bs =>
    if cmp a b ≤ 0 then a :: jsMerge cmp as (b :: bs)
    else b :: jsMerge cmp (a :: as) bs
termination_by as bs => as.length + bs.length

/-- `Array.prototype.sort(cmp)` modelled as a stable merge sort (ECMA-262
requires sort to be stable; the exact algorithm is implementation-defined,
and every property proved below holds for any stable merge). -/
def jsMergeSort (cmp : α → α → Int) : List α → List α
  | [] => []
  | [a] => [a]
  | a :: b :: rest =>
    jsMerge cmp (jsMergeSort cmp ((a :: b :: rest).take ((rest.length + 2) / 2)))
      (jsMergeSort cmp ((a :: b :: rest).drop ((rest.length + 2) / 2)))
termination_by l => l.length
decreasing_by
  · simp; omega
  · simp; omega

/-- `processedData` (`useDataTable.ts` v2.0.0, local mode): client-side
full-text filter, then column filters, then sort.  `clientFilterEnabled`
stands for `clientFilterConfig?.enabled !== false` and `filterModeServer`
for `filterConfig?.filterMode === 'server'`.  The `sort.column &&
sort.direction` truthiness test makes an empty-string column falsy. -/
def processedData (lc : String → String → Int) (propData : List JSVal)
    (columns : List Column) (clientFilterTerm : String) (clientFilterEnabled : Bool)
    (filters : FilterState) (filterModeServer : Bool) (sort : SortState) : List JSVal :=
  let result := propData
  let result :=
    if clientFilterTerm != "" && clientFilterEnabled then
      result.filter (fun row => matchesSearch columns row (strLower clientFilterTerm))
    else result
  let result :=
    if !filters.isEmpty && !filterModeServer then
      result.filter (fun row => filters.all (fun kv => evalFilter row kv.1 kv.2))
    else result
  match sort.column, sort.direction with
  | some col, some dir =>
    if col == "" then result else jsMergeSort (sortCmp lc col dir) result
  | _, _ => result

/-- `totalPages = Math.ceil(totalCount / rowsPerPage)`. -/
def totalPages (totalCount rowsPerPage : Nat) : Nat :=
  (totalCount + rowsPerPage - 1) / rowsPerPage

/-- `paginatedData` (local mode):
`processedData.slice(page * rowsPerPage, page * rowsPerPage + rowsPerPage)`. -/
def paginatedData (processed : List JSVal) (page rowsPerPage : Nat) : List JSVal :=
  (processed.drop (page * rowsPerPage)).take rowsPerPage

/-- `SelectionConfig.mode`. -/
inductive SelectionMode where
  | single
  | multiple
  deriving DecidableEq

/-- `SelectionConfig.selectAllScope`. -/
inductive SelectAllScopeMode where
  | page
  | all
  deriving DecidableEq

/-- `SelectionConfig` restricted to the fields the hook reads. -/
structure SelectionConfig where
  mode : Option SelectionMode := none
  selectAllScope : Option SelectAllScopeMode := none
  doubleClickSelectsOnly : Option Bool := none
  showSelectAll : Option Bool := none

/-- `getRowKey(row) = row[rowKeyField]` (a direct property read). -/
def getRowKey (rowKeyField : String) (row : JSVal) : JSVal :=
  getProp row rowKeyField

/-- `handleSelectionChange(row)` (row-click toggle), as the new selection
list it produces: `'single'` mode toggles between `[]` and `[row]`; any
other mode removes or appends the row, compared by `rowKeyField`. -/
def handleSelectionChange (config : SelectionConfig) (rowKeyField : String)
    (selectedRows : List JSVal) (row : JSVal) : List JSVal :=
  let key := getRowKey rowKeyField row
  let alreadySelected := selectedRows.any (fun r => jsStrictEq (getRowKey rowKeyField r) key)
  if config.mode == some .single then
    if alreadySelected then [] else [row]
  else
    if alreadySelected then
      selectedRows.filter (fun r => !jsStrictEq (getRowKey rowKeyField r) key)
    else selectedRows ++ [row]

/-- `handleDoubleClickSelection(row)`: replaces the selection with `[row]`
unless `doubleClickSelectsOnly === false`, in which case nothing changes. -/
def handleDoubleClickSelection (config : SelectionConfig)
    (selectedRows : List JSVal) (row : JSVal) : List JSVal :=
  if config.doubleClickSelectsOnly != some false then [row] else selectedRows

/-- `selectAllScope`: the rows the select-all checkbox covers —
`processedData` when the configured scope is `'all'`, else
`paginatedData`. -/
def selectAllScope (config : SelectionConfig)
    (processed paginated : List JSVal) : List JSVal :=
  if config.selectAllScope == some .all then processed else paginated

/-- `handleSelectAll(checked)`: the new selection is the whole scope when
checked and the empty list otherwise; the previous selection and the
selection mode are not consulted. -/
def handleSelectAll (config : SelectionConfig) (processed paginated : List JSVal)
    (_selectedRows : List JSVal) (checked : Bool) : List JSVal :=
  if checked then selectAllScope config processed paginated else []

/-- The slice of hook state `fetchServerData` can observe or update. -/
structure TableServerState where
  serverLoading : Bool
  serverData : List JSVal
  serverTotalCount : Nat
  page : Nat
  rowsPerPage : Nat
  sort : SortState
  filters : FilterState

/-- The `{ data, totalCount }` response of the injected fetch function. -/
structure FetchResult where
  data : List JSVal
  totalCount : Nat

/-- `fetchServerData` (`useDataTable.ts` v2.0.0) as a state transition:
`setServerLoading(true)`, then the awaited fetch either resolves (its data
and total count are stored) or rejects (the `catch` block only logs);
the `finally` block clears the loading flag either way.  The second
component records whether the catch-block `console.error` report fired. -/
def fetchServerData (st : TableServerState)
    (result : Except String FetchResult) : TableServerState × Bool :=
  let loading := { st with serverLoading := true }
  match result with
  | .ok r =>
    ({ loading with serverData := r.data, serverTotalCount := r.totalCount, serverLoading := false }, false)
  | .error _ =>
    ({ loading with serverLoading := false }, true)

/-- The value a sort on `column` resolves for this row is present (not
`null`/`undefined`). -/
def presentAt (column : String) (row : JSVal) : Prop :=
  nullish (getNestedValue row column) = false

/-- `isRowSelected(row)`: membership in the selection by `rowKeyField`
equality. -/
def isRowSelected (rowKeyField : String) (selectedRows : List JSVal)
    (row : JSVal) : Bool :=
  selectedRows.any (fun r => jsStrictEq (getProp r rowKeyField) (getRowKey rowKeyField row))

/-- A concrete three-way string comparison standing in for
`localeCompare` in closed witnesses (every proved sorting property holds
for an arbitrary comparison function). -/
def strCompare (a b : String) : Int :=
  if a < b then -1 else if b < a then 1 else 0

/-- A row `{ id: i }`. -/
def mkRow (i : Nat) : JSVal := .obj [("id", .num i)] none

/-- A 137-row fixture. -/
def data137 : List JSVal := (List.range 137).map mkRow

/-- A 25-row fixture. -/
def data25 : List JSVal := (List.range 25).map mkRow

/-- No sorting requested. -/
def noSort : SortState := ⟨none, none⟩

/-- The 25-row fixture run through the (here trivial) filter and sort
stages of the pipeline. -/
def proc25 : List JSVal := processedData strCompare data25 [] "" true [] false noSort

/-- Page 1 (0-indexed; the second page) of the 25-row fixture at 10 rows
per page. -/
def pag25 : List JSVal := paginatedData proc25 1 10

/-- A row whose `"k"` field is present. -/
def rowPresent : JSVal := .obj [("k", .num 1)] none

/-- A row whose `"k"` field is missing (resolves to `undefined`). -/
def rowMissing : JSVal := .obj [] none

/-- A row with a prototype that deliberately carries banned-key
properties. -/
def protoRow : JSVal :=
  .obj [("a", .obj [("x", .num 1)]
    (some (.obj [("constructor", .str "evil"), ("__proto__", .str "evil2")] none)))] none

/-- A row `{ name: "Alice" }`. -/
def rowAlice : JSVal := .obj [("name", .str "Alice")] none

/-- A column whose formatter emits markup-dangerous text, exercising
cell escaping in the exporters. -/
def colDanger : Column :=
  { id := "v", label := "Value", exportFormat := some (fun _ _ _ => "<x>& y") }

/-- A one-field row for the export fixtures. -/
def rowV : JSVal := .obj [("v", .bool true)] none

/-- Export config: untrusted (default) markup in `customHeader`. -/
def cfgA : ExportConfig := { title := some "T", customHeader := some "<b>Hi</b>" }

/-- Export config: `allowUnsafeHtml` opted in, markup-dangerous title,
subtitle, header and footer. -/
def cfgB : ExportConfig :=
  { title := some "<i>T</i>", subtitle := some "<s>S</s>",
    customHeader := some "<b>Hi</b>", customFooter := some "<u>F</u>",
    allowUnsafeHtml := some true }

/-- Word export of the untrusted fixture. -/
def outA : String := exportToWord [rowV] [colDanger] cfgA "1/1/2026"

/-- Word export of the trusted (`allowUnsafeHtml: true`) fixture with a
deliberately wicked timestamp. -/
def outB : String := exportToWord [rowV] [colDanger] cfgB "<AM>"


/-- A banned segment anywhere in the remaining path forces the resolution
loop to answer `undefined`. -/
theorem getNestedValueLoop_banned :
    ∀ (segs : List String) (cur : JSVal), (∃ seg ∈ segs, seg ∈ bannedKeys) →
    getNestedValueLoop cur segs = .undefinedV := by
  intro segs
  induction segs with
  | nil =>
    rintro cur ⟨s, hs, _⟩
    cases hs
  | cons part rest ih =>
    rintro cur ⟨s, hs, hb⟩
    by_cases hp : part ∈ bannedKeys
    · simp [getNestedValueLoop, hp]
    · have hrest : s ∈ rest := by
        rcases List.mem_cons.mp hs with h1 | h1
        · exact absurd (h1 ▸ hb) hp
        · exact h1
      cases hcomp : isComposite cur with
      | false => simp [getNestedValueLoop, hp, hcomp]
      | true =>
        simpa [getNestedValueLoop, hp, hcomp] using
          ih (getProp cur part) ⟨s, hrest, hb⟩

/-- Membership in a merge is membership in either run. -/
theorem mem_jsMerge {cmp : α → α → Int} :
    ∀ (as bs : List α) (x : α), x ∈ jsMerge cmp as bs ↔ x ∈ as ∨ x ∈ bs := by
  have key : ∀ (n : Nat) (as bs : List α), as.length + bs.length ≤ n →
      ∀ x, x ∈ jsMerge cmp as bs ↔ x ∈ as ∨ x ∈ bs := by
    intro n
    induction n with
    | zero =>
      intro as bs hlen x
      match as, bs with
      | [], bs => simp [jsMerge]
      | a :: as, [] => simp [jsMerge]
      | a :: as, b :: bs => simp at hlen
    | succ n ih =>
      intro as bs hlen x
      match as, bs with
      | [], bs => simp [jsMerge]
      | a :: as, [] => simp [jsMerge]
      | a :: as, b :: bs =>
        simp only [jsMerge]
        split
        · rw [List.mem_cons, ih as (b :: bs) (by simp at hlen ⊢; omega) x]
          simp only [List.mem_cons]
          tauto
        · rw [List.mem_cons, ih (a :: as) bs (by simp at hlen ⊢; omega) x]
          simp only [List.mem_cons]
          tauto
  exact fun as bs x => key (as.length + bs.length) as bs le_rfl x

/-- Merging two `r`-pairwise runs with a comparator compatible with `r`
yields an `r`-pairwise run. -/
theorem pairwise_jsMerge {r : α → α → Prop} {cmp : α → α → Int}
    (hr : Transitive r)
    (hc1 : ∀ a b, cmp a b ≤ 0 → r a b)
    (hc2 : ∀ a b, ¬cmp a b ≤ 0 → r b a) :
    ∀ (as bs : List α), as.Pairwise r → bs.Pairwise r →
      (jsMerge cmp as bs).Pairwise r := by
  have key : ∀ (n : Nat) (as bs : List α), as.length + bs.length ≤ n →
      as.Pairwise r → bs.Pairwise r → (jsMerge cmp as bs).Pairwise r := by
    intro n
    induction n with
    | zero =>
      intro as bs hlen ha hb
      match as, bs with
      | [], bs => simpa [jsMerge] using hb
      | a :: as, [] => simpa [jsMerge] using ha
      | a :: as, b :: bs => simp at hlen
    | succ n ih =>
      intro as bs hlen ha hb
      match as, bs with
      | [], bs => simpa [jsMerge] using hb
      | a :: as, [] => simpa [jsMerge] using ha
      | a :: as, b :: bs =>
        simp only [jsMerge]
        split
        case isTrue hle =>
          refine List.pairwise_cons.mpr ⟨?_, ?_⟩
          · intro x hx
            rcases (mem_jsMerge as (b :: bs) x).mp hx with h1 | h1
            · exact List.rel_of_pairwise_cons ha h1
            · rcases List.mem_cons.mp h1 with h2 | h2
              · exact h2 ▸ hc1 a b hle
              · exact hr (hc1 a b hle) (List.rel_of_pairwise_cons hb h2)
          · exact ih as (b :: bs) (by simp at hlen ⊢; omega) ha.of_cons hb
        case isFalse hgt =>
          refine List.pairwise_cons.mpr ⟨?_, ?_⟩
          · intro x hx
            rcases (mem_jsMerge (a :: as) bs x).mp hx with h1 | h1
            · rcases List.mem_cons.mp h1 with h2 | h2
              · exact h2 ▸ hc2 a b hgt
              · exact hr (hc2 a b hgt) (List.rel_of_pairwise_cons ha h2)
            · exact List.rel_of_pairwise_cons hb h1
          · exact ih (a :: as) bs (by simp at hlen ⊢; omega) ha hb.of_cons
  exact fun as bs => key (as.length + bs.length) as bs le_rfl

/-- The stable merge sort always produces an `r`-pairwise list whenever
the comparator is compatible with the transitive relation `r`. -/
theorem pairwise_jsMergeSort {r : α → α → Prop} {cmp : α → α → Int}
    (hr : Transitive r)
    (hc1 : ∀ a b, cmp a b ≤ 0 → r a b)
    (hc2 : ∀ a b, ¬cmp a b ≤ 0 → r b a) :
    ∀ (l : List α), (jsMergeSort cmp l).Pairwise r := by
  have key : ∀ (n : Nat) (l : List α), l.length ≤ n →
      (jsMergeSort cmp l).Pairwise r := by
    intro n
    induction n with
    | zero =>
      intro l hlen
      match l with
      | [] => simp [jsMergeSort]
      | a :: t => simp at hlen
    | succ n ih =>
      intro l hlen
      match l with
      | [] => simp [jsMergeSort]
      | [a] => simp [jsMergeSort]
      | a :: b :: rest =>
        simp only [jsMergeSort]
        refine pairwise_jsMerge hr hc1 hc2 _ _ ?_ ?_
        · exact ih _ (by simp at hlen ⊢; omega)
        · exact ih _ (by simp at hlen ⊢; omega)
  exact fun l => key l.length l le_rfl

/-- A list pairwise ordered by "later elements can only satisfy `front`
if earlier ones do" splits into a `front` prefix and a `¬front` suffix. -/
theorem pairwise_imp_split (front : α → Prop) :
    ∀ (l : List α), l.Pairwise (fun x y => front y → front x) →
    ∃ xs ys, l = xs ++ ys ∧ (∀ x ∈ xs, front x) ∧ (∀ y ∈ ys, ¬front y) := by
  intro l hl
  induction l with
  | nil => exact ⟨[], [], rfl, by simp, by simp⟩
  | cons a t ih =>
    obtain ⟨xs, ys, ht, hxs, hys⟩ := ih hl.of_cons
    by_cases hfa : front a
    · refine ⟨a :: xs, ys, by simp [ht], ?_, hys⟩
      intro x hx
      rcases List.mem_cons.mp hx with h1 | h1
      · exact h1 ▸ hfa
      · exact hxs x h1
    · refine ⟨[], a :: t, rfl, by simp, ?_⟩
      intro y hy
      rcases List.mem_cons.mp hy with h1 | h1
      · exact h1 ▸ hfa
      · exact fun hf => hfa (List.rel_of_pairwise_cons hl h1 hf)


/-- Ascending comparator, compatibility 1: a non-positive comparison with
a present right operand forces a present left operand. -/
theorem sortCmp_asc_le (lc : String → String → Int) (col : String) (a b : JSVal)
    (h : sortCmp lc col .asc a b ≤ 0) : presentAt col b → presentAt col a := by
  intro _hb
  by_contra ha
  have ha' : nullish (getNestedValue a col) = true := by
    simpa [presentAt] using ha
  simp [sortCmp, ha'] at h

/-- Ascending comparator, compatibility 2: a positive comparison with a
present left operand forces a present right operand. -/
theorem sortCmp_asc_gt (lc : String → String → Int) (col : String) (a b : JSVal)
    (h : ¬sortCmp lc col .asc a b ≤ 0) : presentAt col a → presentAt col b := by
  intro ha
  by_contra hb
  have ha' : nullish (getNestedValue a col) = false := ha
  have hb' : nullish (getNestedValue b col) = true := by
    simpa [presentAt] using hb
  simp [sortCmp, ha', hb'] at h

/-- Descending comparator, compatibility 1: a non-positive comparison
with a missing right operand forces a missing left operand. -/
theorem sortCmp_desc_le (lc : String → String → Int) (col : String) (a b : JSVal)
    (h : sortCmp lc col .desc a b ≤ 0) : ¬presentAt col b → ¬presentAt col a := by
  intro hb ha
  have ha' : nullish (getNestedValue a col) = false := ha
  have hb' : nullish (getNestedValue b col) = true := by
    simpa [presentAt] using hb
  simp [sortCmp, ha', hb'] at h

/-- Descending comparator, compatibility 2: a positive comparison with a
missing left operand is impossible. -/
theorem sortCmp_desc_gt (lc : String → String → Int) (col : String) (a b : JSVal)
    (h : ¬sortCmp lc col .desc a b ≤ 0) : ¬presentAt col a → ¬presentAt col b := by
  intro ha
  exfalso
  have ha' : nullish (getNestedValue a col) = true := by
    simpa [presentAt] using ha
  simp [sortCmp, ha'] at h

/-- Ascending sort: present-valued rows form a prefix, missing-valued
rows a suffix. -/
theorem jsMergeSort_asc_split (lc : String → String → Int) (col : String)
    (l : List JSVal) :
    ∃ xs ys, jsMergeSort (sortCmp lc col .asc) l = xs ++ ys ∧
      (∀ x ∈ xs, presentAt col x) ∧ (∀ y ∈ ys, ¬presentAt col y) := by
  apply pairwise_imp_split
  apply pairwise_jsMergeSort (r := fun x y => presentAt col y → presentAt col x)
  · intro x y z hxy hyz hz
    exact hxy (hyz hz)
  · exact fun a b h hb => sortCmp_asc_le lc col a b h hb
  · exact fun a b h ha => sortCmp_asc_gt lc col a b h ha

/-- Descending sort: missing-valued rows form a prefix, present-valued
rows a suffix. -/
theorem jsMergeSort_desc_split (lc : String → String → Int) (col : String)
    (l : List JSVal) :
    ∃ xs ys, jsMergeSort (sortCmp lc col .desc) l = xs ++ ys ∧
      (∀ x ∈ xs, ¬presentAt col x) ∧ (∀ y ∈ ys, presentAt col y) := by
  have h := pairwise_imp_split (fun row => ¬presentAt col row)
    (jsMergeSort (sortCmp lc col .desc) l) ?_
  · obtain ⟨xs, ys, h1, h2, h3⟩ := h
    exact ⟨xs, ys, h1, h2, fun y hy => not_not.mp (h3 y hy)⟩
  · apply pairwise_jsMergeSort (r := fun x y => ¬presentAt col y → ¬presentAt col x)
    · intro x y z hxy hyz hz
      exact hxy (hyz hz)
    · exact fun a b h hb => sortCmp_desc_le lc col a b h hb
    · exact fun a b h ha => sortCmp_desc_gt lc col a b h ha

/-- No rows means no pages. -/
theorem totalPages_zero (rpp : Nat) (h : 0 < rpp) : totalPages 0 rpp = 0 := by
  unfold totalPages
  rw [Nat.zero_add]
  exact Nat.div_eq_of_lt (by omega)

/-- Peeling one page off the ceiling division. -/
theorem totalPages_succ (n rpp : Nat) (hr : 0 < rpp) (hn : 0 < n) :
    totalPages n rpp = totalPages (n - rpp) rpp + 1 := by
  unfold totalPages
  have h1 : n + rpp - 1 = (n - 1) + rpp := by omega
  rw [h1, Nat.add_div_right _ hr]
  rcases le_or_lt rpp n with h | h
  · have h2 : n - rpp + rpp - 1 = n - 1 := by omega
    rw [h2]
  · have h2 : n - rpp = 0 := by omega
    rw [h2, Nat.zero_add]
    rw [Nat.div_eq_of_lt (by omega), Nat.div_eq_of_lt (by omega)]

/-- The page count covers the whole collection. -/
theorem length_le_totalPages_mul (n rpp : Nat) (hr : 0 < rpp) :
    n ≤ totalPages n rpp * rpp := by
  unfold totalPages
  by_contra h
  push_neg at h
  have h2 : ((n + rpp - 1) / rpp + 1) * rpp ≤ n + rpp - 1 := by
    have hmul : (n + rpp - 1) / rpp * rpp + rpp ≤ n - 1 + rpp := by omega
    calc ((n + rpp - 1) / rpp + 1) * rpp
        = (n + rpp - 1) / rpp * rpp + rpp := by ring
      _ ≤ n - 1 + rpp := hmul
      _ = n + rpp - 1 := by omega
  have h3 : (n + rpp - 1) / rpp + 1 ≤ (n + rpp - 1) / rpp :=
    (Nat.le_div_iff_mul_le hr).mpr h2
  omega


/-- Concatenating the pages `0, …, totalPages - 1` restores the whole
collection. -/
theorem pages_flatten (rpp : Nat) (hr : 0 < rpp) :
    ∀ (l : List JSVal),
      ((List.range (totalPages l.length rpp)).flatMap fun p => paginatedData l p rpp) = l := by
  have key : ∀ (n : Nat) (l : List JSVal), l.length ≤ n →
      ((List.range (totalPages l.length rpp)).flatMap fun p => paginatedData l p rpp) = l := by
    intro n
    induction n with
    | zero =>
      intro l hlen
      have hnil : l = [] := List.length_eq_zero.mp (by omega)
      subst hnil
      simp [totalPages_zero rpp hr]
    | succ n ih =>
      intro l hlen
      by_cases hl : l = []
      · subst hl
        simp [totalPages_zero rpp hr]
      · have hlen0 : 0 < l.length := List.length_pos.mpr hl
        rw [totalPages_succ _ _ hr hlen0, List.range_succ_eq_map, List.flatMap_cons,
          List.flatMap_map]
        have hpage : ∀ p, paginatedData l (Nat.succ p) rpp = paginatedData (l.drop rpp) p rpp := by
          intro p
          simp [paginatedData, List.drop_drop, Nat.succ_mul, Nat.add_comm]
        simp only [hpage]
        have ih' := ih (l.drop rpp) (by rw [List.length_drop]; omega)
        rw [List.length_drop] at ih'
        have hfirst : paginatedData l 0 rpp = l.take rpp := by
          simp [paginatedData]
        rw [hfirst, ih', List.take_append_drop]
  exact fun l => key l.length l le_rfl

/-- A page index at or beyond the page count slices to the empty list. -/
theorem paginatedData_beyond (l : List JSVal) (p rpp : Nat) (hr : 0 < rpp)
    (h : totalPages l.length rpp ≤ p) : paginatedData l p rpp = [] := by
  have h1 : l.length ≤ p * rpp :=
    le_trans (length_le_totalPages_mul l.length rpp hr) (Nat.mul_le_mul_right rpp h)
  simp [paginatedData, List.drop_eq_nil_of_le h1]

/-- C1: for every row object and every dot-separated path containing
`"__proto__"`, `"constructor"`, or `"prototype"` as any segment,
`getNestedValue` returns `undefined` (and, being a total function, never
throws), including when those properties are deliberately present on the
row's prototype chain. -/
theorem claim1_prototype_pollution_guard (row : JSVal) (path : String)
    (h : ∃ seg ∈ splitPath path, seg ∈ bannedKeys) :
    getNestedValue row path = .undefinedV :=
  getNestedValueLoop_banned (splitPath path) row h

/-- Witness for C1: the concrete path `"a.constructor.x"` on a row whose
prototype chain deliberately carries `constructor` and `__proto__`
properties resolves to `undefined`. -/
theorem claim1_prototype_pollution_guard_witness :
    (∃ seg ∈ splitPath "a.constructor.x", seg ∈ bannedKeys) ∧
    getNestedValue protoRow "a.constructor.x" = .undefinedV :=
  ⟨by decide, claim1_prototype_pollution_guard protoRow "a.constructor.x" (by decide)⟩

/-- C6: `escapeHtml` returns the empty string for `null` and for
`undefined` (never the literal text `"null"`/`"undefined"`), and its
output on `"<script>x</script>"` contains no raw `<` or `>`. -/
theorem claim6_escape_markup_null_safe :
    escapeHtml .null = "" ∧ escapeHtml .undefinedV = "" ∧
    (escapeHtml (.str "<script>x</script>")).data.all
      (fun c => !(c == '<' || c == '>')) = true := by
  refine ⟨rfl, rfl, ?_⟩
  simp only [escapeHtml, jsToString]
  decide

/-- C9: when the injected fetch function rejects, `fetchServerData`
clears the loading flag, reports the error, and leaves the previously
fetched data, the total count, and the page/sort/filter state unchanged. -/
theorem claim9_fetch_failure_preserves_state (st : TableServerState) (e : String) :
    (fetchServerData st (.error e)).1.serverLoading = false ∧
    (fetchServerData st (.error e)).2 = true ∧
    (fetchServerData st (.error e)).1.serverData = st.serverData ∧
    (fetchServerData st (.error e)).1.serverTotalCount = st.serverTotalCount ∧
    (fetchServerData st (.error e)).1.page = st.page ∧
    (fetchServerData st (.error e)).1.rowsPerPage = st.rowsPerPage ∧
    (fetchServerData st (.error e)).1.sort = st.sort ∧
    (fetchServerData st (.error e)).1.filters = st.filters := by
  simp [fetchServerData]

/-- C10: `handleSelectAll(false)` replaces the selection wholesale with
the empty set, for every previous selection and both scope modes — rows
selected outside the current scope are deselected too. -/
theorem claim10_select_none_clears_wholesale (config : SelectionConfig)
    (processed paginated prev : List JSVal) :
    handleSelectAll config processed paginated prev false = [] := by
  simp [handleSelectAll]

/-- Counterexample to C4: in `'single'` selection mode, `handleSelectAll(true)`
over a two-row scope produces a selection of cardinality 2 — the claimed
clamping to cardinality ≤ 1 does not happen for select-all. -/
theorem claim4_counterexample :
    ({ mode := some .single, selectAllScope := some .page } : SelectionConfig).mode
      = some SelectionMode.single ∧
    ¬((handleSelectAll { mode := some .single, selectAllScope := some .page }
        [mkRow 0, mkRow 1] [mkRow 0, mkRow 1] [] true).length ≤ 1) := by
  refine ⟨rfl, ?_⟩
  intro h
  simp [handleSelectAll, selectAllScope] at h

/-- C4 as amended: in `'single'` mode, row-click toggling always yields a
selection of cardinality ≤ 1, and double-click selection preserves that
bound; but `handleSelectAll` does not consult the mode at all — when
checked it replaces the selection with the entire select-all scope (the
component instead hides the select-all checkbox in single mode). -/
theorem claim4_amended_selection_clamping :
    (∀ (rowKeyField : String) (sel : List JSVal) (row : JSVal)
       (config : SelectionConfig),
      config.mode = some SelectionMode.single →
      (handleSelectionChange config rowKeyField sel row).length ≤ 1) ∧
    (∀ (config : SelectionConfig) (sel : List JSVal) (row : JSVal),
      sel.length ≤ 1 →
      (handleDoubleClickSelection config sel row).length ≤ 1) ∧
    (∀ (config : SelectionConfig) (processed paginated prev : List JSVal)
       (checked : Bool),
      handleSelectAll config processed paginated prev checked
        = if checked then selectAllScope config processed paginated else []) := by
  refine ⟨?_, ?_, ?_⟩
  · intro rowKeyField sel row config hmode
    simp only [handleSelectionChange, hmode]
    simp only [beq_self_eq_true, if_true]
    split <;> simp
  · intro config sel row h
    simp only [handleDoubleClickSelection]
    split
    · simp
    · exact h
  · intro config processed paginated prev checked
    rfl

/-- Witness for C4 (amended): concrete instances of the three clauses. -/
theorem claim4_amended_selection_clamping_witness :
    (handleSelectionChange { mode := some .single, selectAllScope := some .page } "id"
      [mkRow 0, mkRow 1] (mkRow 5)).length ≤ 1 ∧
    (handleDoubleClickSelection { mode := some .single, selectAllScope := some .page }
      [mkRow 0] (mkRow 5)).length ≤ 1 ∧
    handleSelectAll { mode := some .single, selectAllScope := some .page }
        [mkRow 0, mkRow 1] [mkRow 0, mkRow 1] [] true
      = (if true then
          selectAllScope { mode := some .single, selectAllScope := some .page }
            [mkRow 0, mkRow 1] [mkRow 0, mkRow 1]
        else []) :=
  ⟨claim4_amended_selection_clamping.1 "id" [mkRow 0, mkRow 1] (mkRow 5)
     { mode := some .single, selectAllScope := some .page } rfl,
   claim4_amended_selection_clamping.2.1
     { mode := some .single, selectAllScope := some .page } [mkRow 0] (mkRow 5)
     (by decide),
   claim4_amended_selection_clamping.2.2
     { mode := some .single, selectAllScope := some .page }
     [mkRow 0, mkRow 1] [mkRow 0, mkRow 1] [] true⟩

/-- Counterexample to C5: `"Alice"` and the filter value `"alice"` differ
only in letter case, yet the `equals` operator rejects the row — `equals`
compares the raw `String(...)` forms case-sensitively. -/
theorem claim5_counterexample :
    strLower (jsToString (getNestedValue rowAlice "name"))
      = strLower (jsToString (JSVal.str "alice")) ∧
    evalFilter rowAlice "name" ⟨JSVal.str "alice", .equals⟩ = false := by
  have hv : getNestedValue rowAlice "name" = JSVal.str "Alice" := rfl
  constructor
  · rw [hv]
    simp only [jsToString]
    decide
  · simp only [evalFilter, hv]
    simp only [jsToString]
    decide

/-- C5 as amended: the per-column filter compares `contains`,
`startsWith` and `endsWith` on the lower-cased coerced strings (so those
operators are case-insensitive), compares `greaterThan`/`lessThan`
numerically with `NaN` rejecting, but compares `equals` on the exact
`String(...)` forms, case-sensitively. -/
theorem claim5_amended_filter_coercion :
    (∀ (row : JSVal) (cid : String) (v w : JSVal) (op : FilterOperator),
      (op = .contains ∨ op = .startsWith ∨ op = .endsWith) →
      strLower (jsToString (if nullish v then .str "" else v))
        = strLower (jsToString (if nullish w then .str "" else w)) →
      evalFilter row cid ⟨v, op⟩ = evalFilter row cid ⟨w, op⟩) ∧
    (∀ (row : JSVal) (cid : String) (v : JSVal),
      evalFilter row cid ⟨v, .equals⟩
        = (jsToString (getNestedValue row cid) == jsToString v)) ∧
    (∀ (row : JSVal) (cid : String) (v : JSVal),
      evalFilter row cid ⟨v, .greaterThan⟩
        = match jsToNumber (getNestedValue row cid), jsToNumber v with
          | some a, some b => decide (a > b)
          | _, _ => false) ∧
    (∀ (row : JSVal) (cid : String) (v : JSVal),
      evalFilter row cid ⟨v, .lessThan⟩
        = match jsToNumber (getNestedValue row cid), jsToNumber v with
          | some a, some b => decide (a < b)
          | _, _ => false) := by
  refine ⟨?_, ?_, ?_, ?_⟩
  · intro row cid v w op hop h
    rcases hop with h1 | h1 | h1 <;> subst h1 <;> simp only [evalFilter, h]
  · intro row cid v
    rfl
  · intro row cid v
    rfl
  · intro row cid v
    rfl

/-- Witness for C5 (amended): the `contains` operator treats the filter
values `"ABC"` and `"abc"` identically on a concrete row. -/
theorem claim5_amended_filter_coercion_witness :
    evalFilter rowAlice "name" ⟨JSVal.str "ABC", .contains⟩
      = evalFilter rowAlice "name" ⟨JSVal.str "abc", .contains⟩ :=
  claim5_amended_filter_coercion.1 rowAlice "name" (JSVal.str "ABC") (JSVal.str "abc")
    .contains (Or.inl rfl)
    (by
      show strLower (jsToString (JSVal.str "ABC")) = strLower (jsToString (JSVal.str "abc"))
      simp only [jsToString]
      decide)

/-- Counterexample to C3: sorting descending on `"k"`, the row with a
missing value is placed *before* the row with a present value — missing
values do not sort last in the descending direction. -/
theorem claim3_counterexample :
    nullish (getNestedValue rowMissing "k") = true ∧
    nullish (getNestedValue rowPresent "k") = false ∧
    processedData strCompare [rowPresent, rowMissing] [] "" true [] false
      ⟨some "k", some .desc⟩ = [rowMissing, rowPresent] := by
  refine ⟨by decide, by decide, ?_⟩
  simp [processedData, jsMergeSort, jsMerge, sortCmp, getNestedValue,
    getNestedValueLoop, splitPath, splitDot, getProp, findField, bannedKeys,
    nullish, isComposite, rowPresent, rowMissing]

/-- C3 as amended: for every sort with a non-null, non-empty column, rows
whose resolved value is `null`/`undefined` are placed after all
present-valued rows when the direction is ascending, and *before* all
present-valued rows when the direction is descending. -/
theorem claim3_amended_null_placement (lc : String → String → Int)
    (data : List JSVal) (columns : List Column) (term : String) (enabled : Bool)
    (filters : FilterState) (filterModeServer : Bool) (col : String)
    (hcol : (col == "") = false) :
    (∃ xs ys,
      processedData lc data columns term enabled filters filterModeServer
        ⟨some col, some .asc⟩ = xs ++ ys ∧
      (∀ x ∈ xs, presentAt col x) ∧ (∀ y ∈ ys, ¬presentAt col y)) ∧
    (∃ xs ys,
      processedData lc data columns term enabled filters filterModeServer
        ⟨some col, some .desc⟩ = xs ++ ys ∧
      (∀ x ∈ xs, ¬presentAt col x) ∧ (∀ y ∈ ys, presentAt col y)) := by
  constructor
  · simp only [processedData, hcol, Bool.false_eq_true, if_false]
    exact jsMergeSort_asc_split lc col _
  · simp only [processedData, hcol, Bool.false_eq_true, if_false]
    exact jsMergeSort_desc_split lc col _

/-- Witness for C3 (amended): the split statement at the two-row fixture. -/
theorem claim3_amended_null_placement_witness :
    (∃ xs ys,
      processedData strCompare [rowPresent, rowMissing] [] "" true [] false
        ⟨some "k", some .asc⟩ = xs ++ ys ∧
      (∀ x ∈ xs, presentAt "k" x) ∧ (∀ y ∈ ys, ¬presentAt "k" y)) ∧
    (∃ xs ys,
      processedData strCompare [rowPresent, rowMissing] [] "" true [] false
        ⟨some "k", some .desc⟩ = xs ++ ys ∧
      (∀ x ∈ xs, ¬presentAt "k" x) ∧ (∀ y ∈ ys, presentAt "k" y)) :=
  claim3_amended_null_placement strCompare [rowPresent, rowMissing] [] "" true [] false
    "k" (by decide)

/-- C7: whenever the filtered-and-sorted collection has 137 rows and
`rowsPerPage = 10`, there are exactly `ceil(137/10) = 14` pages, the
concatenation of pages `0 … 13` in order equals the whole collection, and
any page index at or beyond 14 yields the empty page. -/
theorem claim7_pagination_round_trip (lc : String → String → Int)
    (data : List JSVal) (columns : List Column) (term : String) (enabled : Bool)
    (filters : FilterState) (fm : Bool) (sort : SortState)
    (h : (processedData lc data columns term enabled filters fm sort).length = 137) :
    totalPages (processedData lc data columns term enabled filters fm sort).length 10 = 14 ∧
    ((List.range 14).flatMap fun p =>
        paginatedData (processedData lc data columns term enabled filters fm sort) p 10)
      = processedData lc data columns term enabled filters fm sort ∧
    ∀ p, 14 ≤ p →
      paginatedData (processedData lc data columns term enabled filters fm sort) p 10 = [] := by
  have h14 : totalPages 137 10 = 14 := by decide
  refine ⟨?_, ?_, ?_⟩
  · rw [h, h14]
  · have hp := pages_flatten 10 (by norm_num)
      (processedData lc data columns term enabled filters fm sort)
    rw [h, h14] at hp
    exact hp
  · intro p hp14
    apply paginatedData_beyond _ _ _ (by norm_num)
    rw [h, h14]
    exact hp14

/-- Witness for C7: the 137-row fixture, with no filters and no sort,
has exactly 14 pages whose concatenation restores it, and page 20 is
empty. -/
theorem claim7_pagination_round_trip_witness :
    (processedData strCompare data137 [] "" true [] false noSort).length = 137 ∧
    totalPages (processedData strCompare data137 [] "" true [] false noSort).length 10 = 14 ∧
    ((List.range 14).flatMap fun p =>
        paginatedData (processedData strCompare data137 [] "" true [] false noSort) p 10)
      = processedData strCompare data137 [] "" true [] false noSort ∧
    paginatedData (processedData strCompare data137 [] "" true [] false noSort) 20 10 = [] := by
  have h : (processedData strCompare data137 [] "" true [] false noSort).length = 137 := by
    simp [processedData, data137, noSort]
  have main := claim7_pagination_round_trip strCompare data137 [] "" true [] false noSort h
  exact ⟨h, main.1, main.2.1, main.2.2 20 (by norm_num)⟩

/-- C8: on the 25-row, 10-per-page fixture (3 pages), select-all on the
second page with scope `'page'` selects exactly the rows with ids 10–19
(rows 11–20, 1-indexed) and no row of any other page, while scope `'all'`
selects all 25 filtered rows. -/
theorem claim8_select_all_scope :
    totalPages 25 10 = 3 ∧
    proc25 = data25 ∧
    pag25 = (List.range' 10 10).map mkRow ∧
    handleSelectAll { selectAllScope := some .page } proc25 pag25 [] true
      = (List.range' 10 10).map mkRow ∧
    handleSelectAll { selectAllScope := some .all } proc25 pag25 [] true = data25 ∧
    data25.map (fun r => isRowSelected "id"
        (handleSelectAll { selectAllScope := some .page } proc25 pag25 [] true) r)
      = (List.range 25).map (fun i => decide (10 ≤ i ∧ i < 20)) := by
  refine ⟨by decide, rfl, rfl, rfl, rfl, ?_⟩
  decide

set_option maxRecDepth 100000 in
/-- C2: in the Word (rich-text) export, title, subtitle, meta line and
every cell value are HTML-escaped regardless of `allowUnsafeHtml` (the
output is independent of the flag once `customHeader`/`customFooter` are
absent, and the trusted fixture still escapes them all), and only
`customHeader`/`customFooter` honor the trust flag; with the default
`allowUnsafeHtml` and `customHeader = "<b>Hi</b>"` the document contains
the literal text `&lt;b&gt;Hi&lt;/b&gt;` and no `<b>Hi</b>` element. -/
theorem claim2_word_export_escaping :
    (∀ (data : List JSVal) (columns : List Column) (config : ExportConfig)
       (now : String) (b1 b2 : Option Bool),
      optTruthy config.customHeader = false → optTruthy config.customFooter = false →
      exportToWord data columns { config with allowUnsafeHtml := b1 } now
        = exportToWord data columns { config with allowUnsafeHtml := b2 } now) ∧
    (strContains outA "&lt;b&gt;Hi&lt;/b&gt;" = true ∧
     strContains outA "<b>Hi</b>" = false) ∧
    (strContains outB "<b>Hi</b>" = true ∧
     strContains outB "<u>F</u>" = true ∧
     strContains outB "&lt;i&gt;T&lt;/i&gt;" = true ∧
     strContains outB "<i>T</i>" = false ∧
     strContains outB "&lt;s&gt;S&lt;/s&gt;" = true ∧
     strContains outB "<s>S</s>" = false ∧
     strContains outB "&lt;x&gt;&amp; y" = true ∧
     strContains outB "<x>" = false ∧
     strContains outB "&lt;AM&gt;" = true ∧
     strContains outB "<AM>" = false) := by
  refine ⟨?_, by decide, by decide⟩
  intro data columns config now b1 b2 h1 h2
  obtain ⟨f, t, st, ihd, ch, cf, au⟩ := config
  simp only [ExportConfig.customHeader] at h1
  simp only [ExportConfig.customFooter] at h2
  simp [exportToWord, h1, h2]

/-- Witness for C2: with no custom header or footer, flipping
`allowUnsafeHtml` between `true` and `false` leaves the generated Word
document unchanged on a concrete fixture. -/
theorem claim2_word_export_escaping_witness :
    exportToWord [rowV] [colDanger]
        { title := some "T", allowUnsafeHtml := some true } "1/1/2026"
      = exportToWord [rowV] [colDanger]
        { title := some "T", allowUnsafeHtml := some false } "1/1/2026" :=
  claim2_word_export_escaping.1 [rowV] [colDanger] { title := some "T" }
    "1/1/2026" (some true) (some false) rfl rfl
